import Mathlib

/-!
Verification development for the Discord transcription stack.

Part A embeds the audio-capture stage (`index.ts`): the static user-name
table, the timestamp and filename construction, and the session-log append
performed by the stream-pipeline callback.

Part B embeds the deduplication engine described by the pipeline document
(`dedupe_transcript.py` is not part of the source tree; those definitions
are modelled from the spec and are marked as such).
-/

/-- Zero-pad a natural number to two decimal digits. -/
def pad2 (n : Nat) : String :=
  if n < 10 then "0" ++ toString n else toString n

/-- Zero-pad a natural number to three decimal digits. -/
def pad3 (n : Nat) : String :=
  if n < 10 then "00" ++ toString n
  else if n < 100 then "0" ++ toString n
  else toString n

/-- Zero-pad a natural number to four decimal digits. -/
def pad4 (n : Nat) : String :=
  if n < 10 then "000" ++ toString n
  else if n < 100 then "00" ++ toString n
  else if n < 1000 then "0" ++ toString n
  else toString n

/-- Proleptic-Gregorian civil date (year, month, day) from a count of days
since 1970-01-01, as used by the JavaScript `Date` APIs that `index.ts`
calls (`toISOString`). -/
def civilFromDays (z : Nat) : Nat × Nat × Nat :=
  let zs := z + 719468
  let era := zs / 146097
  let doe := zs % 146097
  let yoe := (doe - doe / 1460 + doe / 36524 - doe / 146096) / 365
  let y := yoe + era * 400
  let doy := doe - (365 * yoe + yoe / 4 - yoe / 100)
  let mp := (5 * doy + 2) / 153
  let d := doy - (153 * mp + 2) / 5 + 1
  let m := if mp < 10 then mp + 3 else mp - 9
  if m ≤ 2 then (y + 1, m, d) else (y, m, d)

/-- The `YYYY-MM-DD` date part of `Date.prototype.toISOString` (UTC), for a
time given in milliseconds since the epoch.  `index.ts` line 104 computes
this as `now.toISOString().split('T')[0]`. -/
def isoDateOf (ms : Nat) : String :=
  let c := civilFromDays (ms / 86400000)
  pad4 c.1 ++ "-" ++ pad2 c.2.1 ++ "-" ++ pad2 c.2.2

/-- Embedding of `Date.prototype.toISOString` (UTC, millisecond precision),
used by `index.ts` lines 139 and 140 for the `start` and `end` fields. -/
def toISOString (ms : Nat) : String :=
  let rem := ms % 86400000
  isoDateOf ms ++ "T" ++ pad2 (rem / 3600000) ++ ":" ++ pad2 (rem % 3600000 / 60000)
    ++ ":" ++ pad2 (rem % 60000 / 1000) ++ "." ++ pad3 (rem % 1000) ++ "Z"

/-- Local second-of-day for an epoch time `ms` (milliseconds) under a local
timezone offset of `offMin` minutes east of UTC.  This is the information
`Date.prototype.toTimeString` exposes at second resolution: `index.ts`
line 105 truncates the clock to whole seconds by taking `HH:MM:SS`. -/
def localSecondOfDay (offMin : Int) (ms : Nat) : Nat :=
  ((((ms / 1000 : Nat) : Int) + offMin * 60) % 86400).toNat

/-- The `HH-MM-SS` string of `index.ts` line 105:
`now.toTimeString().split(' ')[0].replace(/:/g, '-')`. -/
def timeStrOf (offMin : Int) (ms : Nat) : String :=
  let sod := localSecondOfDay offMin ms
  pad2 (sod / 3600) ++ "-" ++ pad2 (sod % 3600 / 60) ++ "-" ++ pad2 (sod % 60)

/-- The WAV filename of `index.ts` line 106:
`user_<userId>_<HH-MM-SS>.wav`. -/
def mkFilename (userId : String) (offMin : Int) (ms : Nat) : String :=
  "user_" ++ userId ++ "_" ++ timeStrOf offMin ms ++ ".wav"

/-- The static user-name table of `index.ts` lines 20 to 29. -/
def userNames : List (String × String) :=
  [("881203221593464864", "Stef"),
   ("333965420539150337", "Trish"),
   ("113055275296030720", "Hannah"),
   ("340336807222837270", "Hannah"),
   ("220001681423859714", "Rich"),
   ("561856229979324417", "Judy"),
   ("351457457848975362", "Michael"),
   ("1204297411292565585", "Drax")]

/-- Lookup in the static table; `userNames[userId]` in `index.ts`, which is
`undefined` (here `none`) when the id is absent. -/
def lookupName (userId : String) : Option String :=
  (userNames.find? (fun p => p.fst == userId)).map Prod.snd

/-- One session-log record as built by `index.ts` lines 136 to 142. -/
structure LogEntry where
  user : Option String
  user_id : String
  start : String
  «end» : String
  filename : String
deriving DecidableEq, Repr

/-- A JSON value as it appears in a session-log record: a string or `null`. -/
inductive JVal where
  | jstr (s : String)
  | jnull
deriving DecidableEq, Repr

/-- The key/value pairs of the JSON object `JSON.stringify` serializes for a
session-log entry, in insertion order (`index.ts` lines 136 to 142). -/
def entryPairs (e : LogEntry) : List (String × JVal) :=
  [("user", match e.user with | some n => JVal.jstr n | none => JVal.jnull),
   ("user_id", JVal.jstr e.user_id),
   ("start", JVal.jstr e.start),
   ("end", JVal.jstr e.«end»),
   ("filename", JVal.jstr e.filename)]

/-- The field names carried by a serialized session-log entry. -/
def entryKeys (e : LogEntry) : List String :=
  (entryPairs e).map Prod.fst

/-- One invocation of `captureUserAudio` (`index.ts` lines 81 to 152), with
the wall clock modelled as monotone: `nowMs` is the `new Date()` of line
103, the line-124 `startTime` read happens `d1` ms later, and the pipeline
callback of line 126 fires `d2` ms after that.  `err` is the error the
callback receives; `offMin` is the local timezone offset in minutes. -/
structure CaptureRun where
  userId : String
  nowMs : Nat
  offMin : Int
  d1 : Nat
  d2 : Nat
  err : Option String
deriving DecidableEq, Repr

/-- Epoch milliseconds of the `startTime` read at `index.ts` line 124. -/
def startMs (c : CaptureRun) : Nat := c.nowMs + c.d1

/-- Epoch milliseconds of the `endTime` read at `index.ts` line 129, inside
the pipeline callback, hence no earlier than `startMs`. -/
def endMs (c : CaptureRun) : Nat := c.nowMs + c.d1 + c.d2

/-- The filename computed at `index.ts` line 106 for this capture. -/
def captureFilename (c : CaptureRun) : String :=
  mkFilename c.userId c.offMin c.nowMs

/-- The daily directory of `index.ts` line 107, `path.join('./audio', yyyyMMdd)`. -/
def captureDir (c : CaptureRun) : String :=
  "audio/" ++ isoDateOf c.nowMs

/-- The WAV output path of `index.ts` line 108. -/
def captureFilepath (c : CaptureRun) : String :=
  captureDir c ++ "/" ++ captureFilename c

/-- The session-log path of `index.ts` line 109. -/
def captureLogPath (c : CaptureRun) : String :=
  captureDir c ++ "/session_log.jsonl"

/-- The entry object built at `index.ts` lines 136 to 142 when the pipeline
callback runs without error. -/
def captureEntry (c : CaptureRun) : LogEntry :=
  { user := lookupName c.userId
  , user_id := c.userId
  , start := toISOString (startMs c)
  , «end» := toISOString (endMs c)
  , filename := captureFilename c }

/-- Effect of the pipeline callback (`index.ts` lines 126 to 146) on the
session log: on error it returns before writing (line 133); otherwise it
appends exactly one entry (line 144). -/
def captureLog (c : CaptureRun) (log : List LogEntry) : List LogEntry :=
  match c.err with
  | some _ => log
  | none => log ++ [captureEntry c]

/-!
Part B: the deduplication engine.  The repository ships only the design
document for `dedupe_transcript.py`; every definition below is modelled
from the spec (canonicalizer §4.1, similarity engine §4.2, per-speaker
clusterer §4.3, scorer §4.4, global merge pass §4.5, containment filter
§4.6, assembler §4.7).
-/

/-- Split a character list into maximal whitespace-free words. -/
def splitWsAux : List Char → List Char → List String
  | [], acc => if acc.isEmpty then [] else [String.mk acc.reverse]
  | c :: cs, acc =>
      if c.isWhitespace then
        if acc.isEmpty then splitWsAux cs []
        else String.mk acc.reverse :: splitWsAux cs []
      else splitWsAux cs (c :: acc)

/-- Modelled from the spec: whitespace tokenization of a canonical text
(§4.2, "tokenized on whitespace"). -/
def tokens (s : String) : List String :=
  splitWsAux s.data []

/-- The token set of a canonical text (§4.2, "as sets"). -/
def tokenSet (s : String) : Finset String :=
  (tokens s).toFinset

/-- Modelled from the spec: the fixed contraction-expansion table of the
canonicalizer (§4.1 gives the example entry). -/
def contractions : List (String × String) :=
  [("we\x27re", "we are"), ("i\x27m", "i am"), ("it\x27s", "it is"),
   ("don\x27t", "do not"), ("can\x27t", "cannot"), ("won\x27t", "will not")]

/-- Expand one token through the contraction table. -/
def expandWord (w : String) : String :=
  ((contractions.find? (fun p => p.fst == w)).map Prod.snd).getD w

/-- Join words with single spaces. -/
def joinWords : List String → String
  | [] => ""
  | [w] => w
  | w :: ws => w ++ " " ++ joinWords ws

/-- Lowercase a string character by character. -/
def lowerStr (s : String) : String :=
  String.mk (s.data.map Char.toLower)

/-- Keep only alphanumeric and whitespace characters. -/
def stripPunct (s : String) : String :=
  String.mk (s.data.filter (fun c => c.isAlphanum || c.isWhitespace))

/-- Modelled from the spec: the Canonicalizer (§4.1) — lowercase, expand
the fixed contraction table, strip punctuation, collapse whitespace.
(Expansion is applied before punctuation stripping so that the table keys,
which contain apostrophes, can still fire.) -/
def canonicalize (s : String) : String :=
  joinWords ((tokens (lowerStr s)).map (fun w => stripPunct (expandWord w)) |>.flatMap tokens)

/-- Term frequency of token `t` in text `s` (§4.2, term-frequency vectors). -/
def tf (s t : String) : Nat :=
  (tokens s).count t

/-- The union vocabulary of a pair of texts (§4.2). -/
def vocab (a b : String) : Finset String :=
  tokenSet a ∪ tokenSet b

/-- Dot product of the term-frequency vectors over the union vocabulary. -/
def dotTF (a b : String) : Nat :=
  Finset.sum (vocab a b) (fun t => tf a t * tf b t)

/-- Squared Euclidean norm of the term-frequency vector of `a`. -/
def normSq (a : String) : Nat :=
  Finset.sum (tokenSet a) (fun t => tf a t * tf a t)

/-- Modelled from the spec: Jaccard similarity (§4.2), with the
zero-denominator case guarded to 0 (§7, policy edge case). -/
def jaccard (a b : String) : ℚ :=
  if (tokenSet a ∪ tokenSet b).card = 0 then 0
  else ((tokenSet a ∩ tokenSet b).card : ℚ) / ((tokenSet a ∪ tokenSet b).card : ℚ)

/-- Modelled from the spec: the comparison `cosine(a, b) ≥ tc` (§4.2), in
exact arithmetic.  For a nonnegative threshold, `dot / (‖a‖·‖b‖) ≥ tc` is
equivalent to `dot² ≥ tc²·‖a‖²·‖b‖²` since the dot product of
term-frequency vectors is nonnegative; empty texts are non-matching (§7). -/
def cosGE (tc : ℚ) (a b : String) : Bool :=
  decide (normSq a ≠ 0) && decide (normSq b ≠ 0) &&
    decide (tc ^ 2 * ((normSq a : ℚ) * (normSq b : ℚ)) ≤ ((dotTF a b : ℚ)) ^ 2)

/-- Modelled from the spec: `is_fragment(a, b)` (§4.2) — the token set of
`a` is a subset of the token set of `b` and `a` has strictly fewer
distinct tokens. -/
def is_fragment (a b : String) : Bool :=
  decide (tokenSet a ⊆ tokenSet b) && decide ((tokenSet a).card < (tokenSet b).card)

/-- Modelled from the spec: the engine configuration (§6): similarity
thresholds, scoring weights, and the filler-word list, with the documented
defaults. -/
structure Config where
  Tj : ℚ := 85 / 100
  Tc : ℚ := 92 / 100
  w1 : ℚ := 1
  w2 : ℚ := 1
  w3 : ℚ := 1
  w4 : ℚ := 1
  fillers : List String := ["uh", "um", "yes", "okay"]
deriving DecidableEq, Repr

/-- Modelled from the spec: the match predicate (§4.2):
`jaccard ≥ T_j OR cosine ≥ T_c OR is_fragment(a,b) OR is_fragment(b,a)`. -/
def matchPred (cfg : Config) (a b : String) : Bool :=
  decide (cfg.Tj ≤ jaccard a b) || cosGE cfg.Tc a b || is_fragment a b || is_fragment b a

/-- Modelled from the spec: one utterance record of the engine's data model
(§3); timestamps are epoch milliseconds. -/
structure UtteranceRecord where
  speaker : String
  speaker_id : String
  start : Nat
  «end» : Nat
  raw_text : String
  status : String
deriving DecidableEq, Repr, Inhabited

/-- The canonical text of a record (§3, derived deterministically). -/
def canonOf (r : UtteranceRecord) : String :=
  canonicalize r.raw_text

/-- Count of punctuation characters in the raw text (§4.4). -/
def punctCount (s : String) : Nat :=
  (s.data.filter (fun c => !(c.isAlphanum || c.isWhitespace))).length

/-- Whether the raw text starts with a capital letter (§4.4). -/
def startsCapital (s : String) : Bool :=
  match s.data with
  | [] => false
  | c :: _ => c.isUpper

/-- Count of filler words in the canonical text (§4.4). -/
def fillerCount (cfg : Config) (s : String) : Nat :=
  ((tokens s).filter (fun t => cfg.fillers.contains t)).length

/-- Modelled from the spec: the cluster member score (§4.4):
`w1·length + w2·punctuation − w3·capital bonus − w4·filler penalty`. -/
def score (cfg : Config) (r : UtteranceRecord) : ℚ :=
  cfg.w1 * ((canonOf r).length : ℚ) + cfg.w2 * (punctCount r.raw_text : ℚ)
    + cfg.w3 * (if startsCapital r.raw_text then 1 else 0)
    - cfg.w4 * (fillerCount cfg (canonOf r) : ℚ)

/-- Whether `x` beats `acc` for representative selection: higher score, or
equal score with an earlier `start` (§4.4 tie break). -/
def beats (cfg : Config) (x acc : UtteranceRecord) : Bool :=
  decide (score cfg acc < score cfg x) ||
    (decide (score cfg x = score cfg acc) && decide (x.start < acc.start))

/-- Fold selecting the best-scoring member starting from `r`. -/
def pickRep (cfg : Config) (r : UtteranceRecord) (rs : List UtteranceRecord) : UtteranceRecord :=
  rs.foldl (fun acc x => if beats cfg x acc then x else acc) r

/-- Modelled from the spec: the representative of a finalized cluster
(§4.4); the empty cluster never arises and maps to a default record. -/
def repOf (cfg : Config) : List UtteranceRecord → UtteranceRecord
  | [] => default
  | r :: rs => pickRep cfg r rs

/-- The join test of the Global Merge Pass (§4.5): same speaker (merging
never crosses speakers) and the match predicate on canonical texts. -/
def mergeJoin (cfg : Config) (x y : UtteranceRecord) : Bool :=
  decide (x.speaker_id = y.speaker_id) && matchPred cfg (canonOf x) (canonOf y)

/-- One step of the merge-pass grouping: all existing groups containing a
member that matches `r` are unioned together with `r`; the others are kept. -/
def insertMerge (cfg : Config) (gs : List (List UtteranceRecord)) (r : UtteranceRecord) :
    List (List UtteranceRecord) :=
  gs.filter (fun g => !(g.any (fun x => mergeJoin cfg x r)))
    ++ [r :: (gs.filter (fun g => g.any (fun x => mergeJoin cfg x r))).flatten]

/-- Modelled from the spec: the grouping performed by the Global Merge Pass
(§4.5) — union-find style connected components of the match relation over
the working list of representatives. -/
def mergeGroups (cfg : Config) (l : List UtteranceRecord) : List (List UtteranceRecord) :=
  l.foldl (insertMerge cfg) []

/-- Modelled from the spec: the Global Merge Pass (§4.5).  Groups the
working list of per-speaker representatives by the match relation (never
crossing speakers) and re-runs the Scorer on each combined member set to
pick the single surviving representative. -/
def globalMergePass (cfg : Config) (l : List UtteranceRecord) : List UtteranceRecord :=
  (mergeGroups cfg l).map (repOf cfg)

/-- Insert a record into a list sorted by `start`, keeping earlier equal
starts first (stable chronological order, §4.7). -/
def insertByStart (r : UtteranceRecord) : List UtteranceRecord → List UtteranceRecord
  | [] => [r]
  | x :: xs => if r.start ≤ x.start then r :: x :: xs else x :: insertByStart r xs

/-- Modelled from the spec: the Transcript Assembler ordering (§4.7) —
sort all surviving records by `start` timestamp. -/
def sortByStart (l : List UtteranceRecord) : List UtteranceRecord :=
  l.foldr insertByStart []

/-- Add a record to the first cluster containing a matching member, else
open a new singleton cluster at the end (§4.3, greedy first-match join). -/
def addToFirstMatch (cfg : Config) (r : UtteranceRecord) :
    List (List UtteranceRecord) → List (List UtteranceRecord)
  | [] => [[r]]
  | g :: gs =>
      if g.any (fun x => matchPred cfg (canonOf x) (canonOf r)) then (g ++ [r]) :: gs
      else g :: addToFirstMatch cfg r gs

/-- Modelled from the spec: the Per-Speaker Clusterer (§4.3) — process one
speaker's accepted records in chronological order, joining the first
cluster with any matching member. -/
def clusterSpeaker (cfg : Config) (l : List UtteranceRecord) : List (List UtteranceRecord) :=
  (sortByStart l).foldl (fun gs r => addToFirstMatch cfg r gs) []

/-- The distinct speaker ids of a batch, in order of first appearance. -/
def speakersOf (l : List UtteranceRecord) : List String :=
  (l.map (fun r => r.speaker_id)).dedup

/-- Modelled from the spec: stages 1 to 4 (§4.1 to §4.4) — per-speaker
clustering of the accepted, non-empty-canonical records followed by
representative selection. -/
def perSpeakerReps (cfg : Config) (l : List UtteranceRecord) : List UtteranceRecord :=
  (speakersOf l).flatMap
    (fun s => (clusterSpeaker cfg (l.filter (fun r => r.speaker_id == s))).map (repOf cfg))

/-- Temporal containment (§4.6): `a`'s interval lies inside `b`'s and is
strictly shorter. -/
def containedIn (a b : UtteranceRecord) : Bool :=
  decide (b.start ≤ a.start) && decide (a.«end» ≤ b.«end») &&
    decide (a.«end» - a.start < b.«end» - b.start)

/-- Modelled from the spec: the Temporal Containment Filter (§4.6),
dropping any record contained in another surviving record of the same
speaker. -/
def containmentFilter (l : List UtteranceRecord) : List UtteranceRecord :=
  l.filter (fun a => !(l.any (fun b => decide (a.speaker_id = b.speaker_id) && containedIn a b)))

/-- Render one transcript line (§4.7): `<speaker>: <raw_text>`. -/
def renderLine (r : UtteranceRecord) : String :=
  r.speaker ++ ": " ++ r.raw_text

/-- Modelled from the spec: the full engine run (§2) — keep accepted
records with non-empty canonical text, cluster per speaker, select
representatives, run the global merge pass, optionally apply the
containment filter, and assemble the chronological transcript. -/
def runEngine (cfg : Config) (useContainment : Bool) (l : List UtteranceRecord) : List String :=
  let accepted := l.filter (fun r => r.status == "accepted" && !((canonOf r).isEmpty))
  let reps := perSpeakerReps cfg accepted
  let merged := globalMergePass cfg reps
  let surviving := if useContainment then containmentFilter merged else merged
  (sortByStart surviving).map renderLine

/-- No member of `g1` matches a member of `g2` under the merge-pass join
test. -/
def noCross (cfg : Config) (g1 g2 : List UtteranceRecord) : Prop :=
  ∀ x ∈ g1, ∀ y ∈ g2, mergeJoin cfg x y = false

/-- Invariant of the merge-pass grouping: all groups are nonempty and no
join-test edge crosses two distinct groups. -/
def GoodGroups (cfg : Config) (gs : List (List UtteranceRecord)) : Prop :=
  (∀ g ∈ gs, g ≠ []) ∧ gs.Pairwise (noCross cfg)

/-- The engine configuration with all documented defaults. -/
def defaultConfig : Config := {}

/-- A concrete successful capture run. -/
def cOk : CaptureRun := ⟨"42", 0, 0, 1, 2, none⟩

/-- A concrete capture run whose pipeline callback receives an error. -/
def cErr : CaptureRun := ⟨"42", 0, 0, 1, 2, some "boom"⟩

/-- A concrete successful capture run for a mapped user. -/
def cEx1 : CaptureRun := ⟨"220001681423859714", 0, 0, 1, 2, none⟩

/-- A capture of user `113055275296030720` starting at epoch millisecond
1000. -/
def cA10 : CaptureRun := ⟨"113055275296030720", 1000, 0, 0, 500, none⟩

/-- A second capture of the same user starting at epoch millisecond 1500,
within the same wall-clock second as `cA10`. -/
def cB10 : CaptureRun := ⟨"113055275296030720", 1500, 0, 0, 500, none⟩

/-- A concrete two-speaker batch whose first record starts later than its
second. -/
def lC6 : List UtteranceRecord :=
  [⟨"A", "1", 5, 6, "b", "accepted"⟩, ⟨"B", "2", 1, 2, "a", "accepted"⟩]

/-- A concrete three-record batch (the end-to-end example of the spec). -/
def lC7 : List UtteranceRecord :=
  [⟨"Trish", "1", 0, 1000, "First mate.", "accepted"⟩,
   ⟨"Trish", "1", 500, 900, "First mate", "accepted"⟩,
   ⟨"Stef", "2", 5000, 6000, "subject to an appropriate skill roll.", "accepted"⟩]

/-! Helper lemmas. -/

theorem jaccard_comm (a b : String) : jaccard a b = jaccard b a := by
  unfold jaccard
  rw [Finset.union_comm, Finset.inter_comm]

theorem dotTF_comm (a b : String) : dotTF a b = dotTF b a := by
  unfold dotTF vocab
  rw [Finset.union_comm]
  exact Finset.sum_congr rfl (fun t _ => Nat.mul_comm _ _)

theorem cosGE_comm (tc : ℚ) (a b : String) : cosGE tc a b = cosGE tc b a := by
  simp only [cosGE, dotTF_comm a b]
  cases h1 : decide (normSq a ≠ 0) <;> cases h2 : decide (normSq b ≠ 0) <;>
    simp [mul_comm]

theorem matchPred_comm (cfg : Config) (a b : String) :
    matchPred cfg a b = matchPred cfg b a := by
  unfold matchPred
  rw [jaccard_comm, cosGE_comm]
  cases is_fragment a b <;> cases is_fragment b a <;> simp

theorem mergeJoin_comm (cfg : Config) (x y : UtteranceRecord) :
    mergeJoin cfg x y = mergeJoin cfg y x := by
  unfold mergeJoin
  rw [matchPred_comm]
  congr 1
  exact decide_eq_decide.mpr eq_comm

theorem noCross_symm (cfg : Config) : Symmetric (noCross cfg) := by
  intro g1 g2 h x hx y hy
  rw [mergeJoin_comm]
  exact h y hy x hx

theorem pickRep_mem (cfg : Config) :
    ∀ (rs : List UtteranceRecord) (r : UtteranceRecord), pickRep cfg r rs ∈ r :: rs := by
  intro rs
  induction rs with
  | nil => intro r; simp [pickRep]
  | cons x xs ih =>
    intro r
    have h2 : pickRep cfg r (x :: xs) = pickRep cfg (if beats cfg x r then x else r) xs := rfl
    rw [h2]
    rcases List.mem_cons.mp (ih (if beats cfg x r then x else r)) with h4 | h4
    · rw [h4]
      by_cases hb : beats cfg x r = true
      · simp [hb]
      · simp [hb]
    · exact List.mem_cons_of_mem _ (List.mem_cons_of_mem _ h4)

theorem repOf_mem (cfg : Config) (g : List UtteranceRecord) (h : g ≠ []) :
    repOf cfg g ∈ g := by
  cases g with
  | nil => exact absurd rfl h
  | cons r rs => exact pickRep_mem cfg rs r

theorem repOf_singleton (cfg : Config) (r : UtteranceRecord) : repOf cfg [r] = r := rfl

theorem insertMerge_good (cfg : Config) (gs : List (List UtteranceRecord))
    (r : UtteranceRecord) (h : GoodGroups cfg gs) : GoodGroups cfg (insertMerge cfg gs r) := by
  obtain ⟨hne, hpw⟩ := h
  constructor
  · intro g hg
    unfold insertMerge at hg
    rcases List.mem_append.mp hg with hg | hg
    · exact hne g (List.mem_of_mem_filter hg)
    · rw [List.mem_singleton.mp hg]
      simp
  · unfold insertMerge
    rw [List.pairwise_append]
    refine ⟨List.Pairwise.sublist (List.filter_sublist _) hpw, by simp, ?_⟩
    intro g hg b hb
    rw [List.mem_singleton.mp hb]
    intro x hx y hy
    rcases List.mem_cons.mp hy with rfl | hy
    · have hcond := (List.mem_filter.mp hg).2
      rw [Bool.not_eq_true'] at hcond
      have := List.any_eq_false.mp hcond x hx
      exact Bool.eq_false_iff.mpr this
    · obtain ⟨m, hm, hym⟩ := List.mem_flatten.mp hy
      have hmgs := List.mem_of_mem_filter hm
      have hggs := List.mem_of_mem_filter hg
      have hneq : g ≠ m := by
        intro e
        have h1 := (List.mem_filter.mp hg).2
        have h2 := (List.mem_filter.mp hm).2
        rw [e, h2] at h1
        simp at h1
      exact hpw.forall (noCross_symm cfg) hggs hmgs hneq x hx y hym

theorem mergeGroups_good (cfg : Config) (l : List UtteranceRecord) :
    GoodGroups cfg (mergeGroups cfg l) := by
  unfold mergeGroups
  suffices h : ∀ gs, GoodGroups cfg gs → GoodGroups cfg (l.foldl (insertMerge cfg) gs) from
    h [] ⟨by simp, List.Pairwise.nil⟩
  induction l with
  | nil => intro gs h; exact h
  | cons r rs ih => intro gs h; exact ih _ (insertMerge_good cfg gs r h)

theorem globalMergePass_pairwise (cfg : Config) (l : List UtteranceRecord) :
    (globalMergePass cfg l).Pairwise (fun a b => mergeJoin cfg a b = false) := by
  unfold globalMergePass
  obtain ⟨hne, hpw⟩ := mergeGroups_good cfg l
  rw [List.pairwise_map]
  exact hpw.imp_of_mem
    (fun h1 h2 hnc => hnc _ (repOf_mem cfg _ (hne _ h1)) _ (repOf_mem cfg _ (hne _ h2)))

theorem insertMerge_of_nomatch (cfg : Config) (gs : List (List UtteranceRecord))
    (r : UtteranceRecord) (h : ∀ g ∈ gs, ∀ x ∈ g, mergeJoin cfg x r = false) :
    insertMerge cfg gs r = gs ++ [[r]] := by
  unfold insertMerge
  have h1 : gs.filter (fun g => g.any (fun x => mergeJoin cfg x r)) = [] := by
    rw [List.filter_eq_nil_iff]
    intro g hg hc
    obtain ⟨x, hx, hmx⟩ := List.any_eq_true.mp hc
    rw [h g hg x hx] at hmx
    exact Bool.false_ne_true hmx
  have h2 : gs.filter (fun g => !(g.any (fun x => mergeJoin cfg x r))) = gs := by
    rw [List.filter_eq_self]
    intro g hg
    rw [Bool.not_eq_true']
    exact List.any_eq_false.mpr (fun x hx => by rw [h g hg x hx]; exact Bool.false_ne_true)
  rw [h1, h2]
  simp

theorem mergeGroups_of_pairwise (cfg : Config) (l : List UtteranceRecord)
    (h : l.Pairwise (fun a b => mergeJoin cfg a b = false)) :
    mergeGroups cfg l = l.map (fun r => [r]) := by
  unfold mergeGroups
  suffices haux : ∀ (rem pre : List UtteranceRecord),
      (∀ x ∈ pre, ∀ r ∈ rem, mergeJoin cfg x r = false) →
      rem.Pairwise (fun a b => mergeJoin cfg a b = false) →
      rem.foldl (insertMerge cfg) (pre.map (fun r => [r])) = (pre ++ rem).map (fun r => [r]) by
    simpa using haux l [] (by simp) h
  intro rem
  induction rem with
  | nil => intro pre h1 h2; simp
  | cons r rs ih =>
    intro pre h1 h2
    have step : insertMerge cfg (pre.map (fun x => [x])) r = (pre.map (fun x => [x])) ++ [[r]] := by
      apply insertMerge_of_nomatch
      intro g hg x hx
      obtain ⟨p, hp, hpg⟩ := List.mem_map.mp hg
      rw [← hpg] at hx
      rw [List.mem_singleton.mp hx]
      exact h1 p hp r (List.mem_cons_self _ _)
    rw [List.foldl_cons, step]
    have hmap : (pre.map (fun x => [x])) ++ [[r]] = (pre ++ [r]).map (fun x => [x]) := by simp
    have h1aux : ∀ x ∈ pre ++ [r], ∀ q ∈ rs, mergeJoin cfg x q = false := by
      intro x hx q hq
      rcases List.mem_append.mp hx with hx | hx
      · exact h1 x hx q (List.mem_cons_of_mem _ hq)
      · rw [List.mem_singleton.mp hx]
        exact (List.pairwise_cons.mp h2).1 q hq
    rw [hmap, ih (pre ++ [r]) h1aux (List.pairwise_cons.mp h2).2]
    simp

/-- Claim C3: the Global Merge Pass is idempotent — grouping its own output
produces only singleton groups (zero additional merges), and a second run
returns its input unchanged. -/
theorem globalMergePass_idempotent (cfg : Config) (reps : List UtteranceRecord) :
    mergeGroups cfg (globalMergePass cfg reps) = (globalMergePass cfg reps).map (fun r => [r]) ∧
    globalMergePass cfg (globalMergePass cfg reps) = globalMergePass cfg reps := by
  have hgroups := mergeGroups_of_pairwise cfg _ (globalMergePass_pairwise cfg reps)
  refine ⟨hgroups, ?_⟩
  rw [show globalMergePass cfg (globalMergePass cfg reps)
        = (mergeGroups cfg (globalMergePass cfg reps)).map (repOf cfg) from rfl,
     hgroups, List.map_map]
  have hcomp : repOf cfg ∘ (fun r => [r]) = id := funext (fun r => rfl)
  rw [hcomp, List.map_id]

theorem mem_insertByStart (r : UtteranceRecord) (l : List UtteranceRecord)
    (y : UtteranceRecord) : y ∈ insertByStart r l ↔ y = r ∨ y ∈ l := by
  induction l with
  | nil => simp [insertByStart]
  | cons x xs ih =>
    unfold insertByStart
    by_cases h : r.start ≤ x.start
    · rw [if_pos h]
      simp [List.mem_cons]
    · rw [if_neg h]
      simp only [List.mem_cons, ih]
      tauto

theorem insertByStart_sorted (r : UtteranceRecord) (l : List UtteranceRecord)
    (h : l.Pairwise (fun a b => a.start ≤ b.start)) :
    (insertByStart r l).Pairwise (fun a b => a.start ≤ b.start) := by
  induction l with
  | nil => simp [insertByStart]
  | cons x xs ih =>
    rw [List.pairwise_cons] at h
    obtain ⟨hx, hxs⟩ := h
    unfold insertByStart
    by_cases hle : r.start ≤ x.start
    · rw [if_pos hle, List.pairwise_cons]
      constructor
      · intro y hy
        rcases List.mem_cons.mp hy with rfl | hy
        · exact hle
        · exact le_trans hle (hx y hy)
      · rw [List.pairwise_cons]
        exact ⟨hx, hxs⟩
    · rw [if_neg hle, List.pairwise_cons]
      constructor
      · intro y hy
        rcases (mem_insertByStart r xs y).mp hy with rfl | hy
        · exact le_of_not_le hle
        · exact hx y hy
      · exact ih hxs

theorem sortByStart_sorted (l : List UtteranceRecord) :
    (sortByStart l).Pairwise (fun a b => a.start ≤ b.start) := by
  unfold sortByStart
  induction l with
  | nil => simp
  | cons x xs ih =>
    rw [List.foldr_cons]
    exact insertByStart_sorted x _ ih

/-- Claim C6: the assembled transcript is chronologically ordered — in the
sorted list of surviving records, a record with a strictly earlier `start`
occupies a strictly earlier position. -/
theorem transcript_chronological (l : List UtteranceRecord)
    (i j : Fin (sortByStart l).length)
    (h : ((sortByStart l).get i).start < ((sortByStart l).get j).start) : i < j := by
  rcases lt_trichotomy i j with hij | hij | hij
  · exact hij
  · rw [hij] at h
    exact absurd h (lt_irrefl _)
  · exact absurd h (not_lt.mpr (List.pairwise_iff_get.mp (sortByStart_sorted l) j i hij))

/-- Claim C6 witness at a concrete two-record batch. -/
theorem transcript_chronological_spot :
    (⟨0, by decide⟩ : Fin (sortByStart lC6).length) < ⟨1, by decide⟩ :=
  transcript_chronological lC6 ⟨0, by decide⟩ ⟨1, by decide⟩ (by decide)

/-- Claim C4: `is_fragment a b` holds exactly when the token set of `a` is
a subset of the token set of `b` with strictly fewer distinct tokens, and a
fragment in either direction is a match for every threshold pair. -/
theorem is_fragment_spec (a b : String) (cfg : Config) :
    (is_fragment a b = true ↔
      tokenSet a ⊆ tokenSet b ∧ (tokenSet a).card < (tokenSet b).card) ∧
    (is_fragment a b = true ∨ is_fragment b a = true → matchPred cfg a b = true) := by
  constructor
  · simp only [is_fragment, Bool.and_eq_true, decide_eq_true_eq]
  · intro h
    unfold matchPred
    rcases h with h | h <;> simp [h]

/-- Claim C4 witness: a fragment pair matches even under thresholds above 1. -/
theorem is_fragment_spot :
    matchPred ⟨2, 2, 1, 1, 1, 1, []⟩ "wonder i" "i wonder if we should go" = true :=
  (is_fragment_spec "wonder i" "i wonder if we should go" ⟨2, 2, 1, 1, 1, 1, []⟩).2
    (Or.inl (by decide))

/-- Claim C5: Jaccard similarity lies in `[0, 1]`, equals the ratio of the
intersection and union token-set sizes whenever the union is nonempty, and
the both-empty zero-denominator case is guarded to the non-matching value 0. -/
theorem jaccard_spec (a b : String) :
    0 ≤ jaccard a b ∧ jaccard a b ≤ 1 ∧
    (tokenSet a = ∅ → tokenSet b = ∅ → jaccard a b = 0) ∧
    ((tokenSet a ∪ tokenSet b).card ≠ 0 →
      jaccard a b = ((tokenSet a ∩ tokenSet b).card : ℚ) / ((tokenSet a ∪ tokenSet b).card : ℚ)) := by
  refine ⟨?_, ?_, ?_, ?_⟩
  · unfold jaccard
    by_cases h : (tokenSet a ∪ tokenSet b).card = 0
    · rw [if_pos h]
    · rw [if_neg h]
      have h1 : (0:ℚ) ≤ ((tokenSet a ∩ tokenSet b).card : ℚ) := Nat.cast_nonneg _
      have h2 : (0:ℚ) ≤ ((tokenSet a ∪ tokenSet b).card : ℚ) := Nat.cast_nonneg _
      exact div_nonneg h1 h2
  · unfold jaccard
    by_cases h : (tokenSet a ∪ tokenSet b).card = 0
    · rw [if_pos h]
      exact zero_le_one
    · rw [if_neg h]
      have hpos : (0:ℚ) < ((tokenSet a ∪ tokenSet b).card : ℚ) := by
        exact_mod_cast Nat.pos_of_ne_zero h
      rw [div_le_one hpos]
      exact_mod_cast Finset.card_le_card Finset.inter_subset_union
  · intro ha hb
    unfold jaccard
    rw [ha, hb]
    simp
  · intro h
    unfold jaccard
    rw [if_neg h]

/-- Claim C5 witness: the guarded empty case and nonnegativity at concrete
texts. -/
theorem jaccard_spot :
    jaccard "" "" = 0 ∧ (0:ℚ) ≤ jaccard "first mate" "first mate sir" :=
  ⟨(jaccard_spec "" "").2.2.1 (by decide) (by decide),
   (jaccard_spec "first mate" "first mate sir").1⟩

/-- Claim C7: the engine is deterministic — equal input batches under equal
configurations produce identical transcripts (every stage is a pure
function of its input). -/
theorem engine_deterministic (cfg₁ cfg₂ : Config) (f₁ f₂ : Bool)
    (l₁ l₂ : List UtteranceRecord) (hc : cfg₁ = cfg₂) (hf : f₁ = f₂) (hl : l₁ = l₂) :
    runEngine cfg₁ f₁ l₁ = runEngine cfg₂ f₂ l₂ := by
  rw [hc, hf, hl]

/-- Claim C7 witness at the spec's end-to-end example batch. -/
theorem engine_deterministic_spot :
    runEngine defaultConfig false lC7 = runEngine defaultConfig false lC7 :=
  engine_deterministic defaultConfig defaultConfig false false lC7 lC7 rfl rfl rfl

/-- Claim C1 (amended): every session-log line the capture stage appends is
one JSON record with exactly the fields `user` (display name or null),
`user_id`, `start` and `end` (ISO-8601 via `toISOString`), and `filename`;
it carries no `status` and no `text` field. -/
theorem capture_entry_fields (c : CaptureRun) :
    entryKeys (captureEntry c) = ["user", "user_id", "start", "end", "filename"] ∧
    "status" ∉ entryKeys (captureEntry c) ∧
    "text" ∉ entryKeys (captureEntry c) ∧
    (captureEntry c).user = lookupName c.userId ∧
    (captureEntry c).user_id = c.userId ∧
    (captureEntry c).start = toISOString (startMs c) ∧
    (captureEntry c).«end» = toISOString (endMs c) ∧
    (captureEntry c).filename = captureFilename c := by
  have hkeys : entryKeys (captureEntry c) = ["user", "user_id", "start", "end", "filename"] := rfl
  refine ⟨hkeys, ?_, ?_, rfl, rfl, rfl, rfl, rfl⟩
  · rw [hkeys]
    decide
  · rw [hkeys]
    decide

/-- Claim C1 counterexample: at a concrete successful capture the appended
record carries neither a `status` nor a `text` field, contradicting the
claim that every capture-stage line carries the full input contract. -/
theorem capture_entry_lacks_status_text :
    ¬ ("status" ∈ entryKeys (captureEntry cEx1) ∧ "text" ∈ entryKeys (captureEntry cEx1)) := by
  intro h
  have hkeys : entryKeys (captureEntry cEx1) = ["user", "user_id", "start", "end", "filename"] :=
    rfl
  rw [hkeys] at h
  exact absurd h.1 (by decide)

/-- Claim C2: the `start` timestamp of every capture is no later than its
`end` timestamp — `startTime` is read before the stream pipeline runs and
`endTime` when its callback completes, on a monotone wall clock — and those
are exactly the instants serialized into the session-log entry. -/
theorem capture_start_le_end (c : CaptureRun) :
    startMs c ≤ endMs c ∧
    (captureEntry c).start = toISOString (startMs c) ∧
    (captureEntry c).«end» = toISOString (endMs c) :=
  ⟨Nat.le_add_right _ _, rfl, rfl⟩

/-- Claim C8: a session-log line is appended exactly when the stream
pipeline completes without error — on success exactly one entry is
appended, on error the log is unchanged. -/
theorem capture_append_iff_success (c : CaptureRun) (log : List LogEntry) :
    (c.err = none →
      captureLog c log = log ++ [captureEntry c] ∧
      (captureLog c log).length = log.length + 1) ∧
    (∀ s, c.err = some s → captureLog c log = log) := by
  constructor
  · intro h
    unfold captureLog
    rw [h]
    exact ⟨rfl, by simp⟩
  · intro s h
    unfold captureLog
    rw [h]

/-- Claim C8 witness: a concrete successful run appends its entry and a
concrete failing run leaves the log unchanged. -/
theorem capture_append_iff_success_spot :
    captureLog cOk [] = [] ++ [captureEntry cOk] ∧ captureLog cErr [] = [] :=
  ⟨((capture_append_iff_success cOk []).1 rfl).1,
   (capture_append_iff_success cErr []).2 "boom" rfl⟩

/-- Claim C9: the display name is not injective in the speaker id — the two
distinct ids `113055275296030720` and `340336807222837270` both map to
`Hannah` — and any id absent from the static table yields a `null` user
field. -/
theorem userNames_hannah_and_null (c : CaptureRun) :
    lookupName "113055275296030720" = some "Hannah" ∧
    lookupName "340336807222837270" = some "Hannah" ∧
    ("113055275296030720" : String) ≠ "340336807222837270" ∧
    ((∀ p ∈ userNames, p.fst ≠ c.userId) → (captureEntry c).user = none) := by
  refine ⟨by decide, by decide, by decide, ?_⟩
  intro h
  have hfind : userNames.find? (fun p => p.fst == c.userId) = none :=
    List.find?_eq_none.mpr (fun x hx => by simpa using h x hx)
  show lookupName c.userId = none
  unfold lookupName
  rw [hfind]
  rfl

/-- Claim C9 witness: an id absent from the table yields a `null` user
field. -/
theorem userNames_hannah_and_null_spot :
    (captureEntry ⟨"0", 0, 0, 0, 0, none⟩).user = none :=
  (userNames_hannah_and_null ⟨"0", 0, 0, 0, 0, none⟩).2.2.2 (by decide)

/-- Claim C10: the WAV filename depends only on the user id and the local
wall-clock capture-start time truncated to whole seconds, follows the
`user_<id>_<HH-MM-SS>.wav` format, and therefore two concrete captures of
the same user within one second record the same filename and target the
same WAV path. -/
theorem filename_second_resolution :
    (∀ (u : String) (off : Int) (ms₁ ms₂ : Nat), ms₁ / 1000 = ms₂ / 1000 →
      mkFilename u off ms₁ = mkFilename u off ms₂) ∧
    (∀ (u : String) (off : Int) (ms : Nat),
      mkFilename u off ms = "user_" ++ u ++ "_" ++ timeStrOf off ms ++ ".wav") ∧
    (captureEntry cA10).filename = (captureEntry cB10).filename ∧
    captureFilepath cA10 = captureFilepath cB10 ∧
    cA10.nowMs ≠ cB10.nowMs := by
  refine ⟨?_, fun u off ms => rfl, by decide, by decide, by decide⟩
  intro u off ms₁ ms₂ h
  unfold mkFilename timeStrOf localSecondOfDay
  rw [h]

/-- Claim C10 witness: two start instants in the same wall-clock second
yield the same filename. -/
theorem filename_second_resolution_spot :
    mkFilename "42" 0 1000 = mkFilename "42" 0 1999 :=
  filename_second_resolution.1 "42" 0 1000 1999 (by decide)
